import Mathlib

/-!
Verification of the yuzubb/ytdl caching stream-info service (src/app.py,
src/api/index.py) against its natural-language specification.

Shallow embedding conventions:
* Python `time.time()` timestamps and cache durations are modelled as `Int`
  seconds; the single time value `now` passed to an operation stands for the
  `current_time = time.time()` taken at its entry.
* A Python dict payload is a structure; the format dicts built by the
  normalization comprehension always carry the same ten keys, plus a `note`
  key that `get_high_quality_stream` may add later, so `Format` carries an
  `Option String` field `note` that normalization sets to `none`.
* The module-level `CACHE` dict is an association list with unique keys.
* The yt-dlp extraction collaborator is an explicit argument of type
  `Except String RawInfo`: `.ok` is a successful `extract_info` result,
  `.error` a raised exception.
* `HTTPException` is modelled by its status code only.
-/

/-- Python truthiness of `f.get("url")`: the key must be present and the
string non-empty. -/
def truthyStr : Option String → Bool
  | none => false
  | some s => !(s == "")

/-- `needle` is a prefix of the character list. -/
def charsPref : List Char → List Char → Bool
  | [], _ => true
  | _ :: _, [] => false
  | a :: as, b :: bs => a == b && charsPref as bs

/-- `needle` occurs somewhere in the character list. -/
def charsContain (needle : List Char) : List Char → Bool
  | [] => charsPref needle []
  | b :: bs => charsPref needle (b :: bs) || charsContain needle bs

/-- Python's substring test `needle in hay` on strings. -/
def strContains (hay needle : String) : Bool :=
  charsContain needle.toList hay.toList

/-- One raw format dict as returned by yt-dlp `extract_info`, restricted to
the keys the service reads; `none` models an absent key or an explicit
`None` value. -/
structure RawFormat where
  format_id : Option String
  ext : Option String
  resolution : Option String
  fps : Option Int
  acodec : Option String
  vcodec : Option String
  url : Option String
  protocol : Option String
  vbr : Option Int
  abr : Option Int
deriving Repr, DecidableEq

/-- The raw `extract_info` result: its title and its `formats` list. -/
structure RawInfo where
  title : Option String
  formats : List RawFormat
deriving Repr, DecidableEq

/-- One normalized format dict built by the comprehension in
`_fetch_and_cache_info` (src/app.py lines 76-91). `note` is absent (`none`)
at normalization time; `get_high_quality_stream` may add it. -/
structure Format where
  itag : Option String
  ext : Option String
  resolution : Option String
  fps : Option Int
  acodec : Option String
  vcodec : Option String
  url : Option String
  protocol : Option String
  vbr : Option Int
  abr : Option Int
  note : Option String
deriving Repr, DecidableEq

/-- The `response_data` dict: title, id and normalized formats. -/
structure Payload where
  title : Option String
  id : String
  formats : List Format
deriving Repr, DecidableEq

/-- One `CACHE` value: `(timestamp, data, duration)`. -/
structure CacheEntry where
  ts : Int
  data : Payload
  dur : Int
deriving Repr, DecidableEq

/-- The module-level `CACHE` dict, as an association list with unique keys. -/
abbrev Cache := List (String × CacheEntry)

/-- `HTTPException`, modelled by its status code. -/
structure HTTPError where
  status : Nat
deriving Repr, DecidableEq

def DEFAULT_CACHE_DURATION : Int := 600

def LONG_CACHE_DURATION : Int := 14200

/-- Dict lookup `CACHE[video_id]` / membership `video_id in CACHE`. -/
def cacheFind (c : Cache) (k : String) : Option CacheEntry :=
  match c with
  | [] => none
  | p :: rest => if p.1 = k then some p.2 else cacheFind rest k

/-- Dict store `CACHE[video_id] = entry` (overwrites unconditionally). -/
def cacheSet (c : Cache) (k : String) (e : CacheEntry) : Cache :=
  c.filter (fun p => !(p.1 == k)) ++ [(k, e)]

/-- `cleanup_cache` (src/app.py lines 41-47): delete every entry with
`now - ts >= dur`, keep exactly those with `now - ts < dur`. -/
def cleanup_cache (now : Int) (c : Cache) : Cache :=
  c.filter (fun p => decide (now - p.2.ts < p.2.dur))

/-- The filter-and-reshape condition of the normalization comprehension:
`f.get("url") and f.get("ext") != "mhtml"`. -/
def keepRaw (f : RawFormat) : Bool :=
  truthyStr f.url && !(f.ext == some "mhtml")

/-- The dict built for one kept raw format. -/
def normalizeFormat (f : RawFormat) : Format :=
  { itag := f.format_id, ext := f.ext, resolution := f.resolution,
    fps := f.fps, acodec := f.acodec, vcodec := f.vcodec, url := f.url,
    protocol := f.protocol, vbr := f.vbr, abr := f.abr, note := none }

/-- The whole normalization comprehension (src/app.py lines 76-91). -/
def cleanFormats (raws : List RawFormat) : List Format :=
  (raws.filter keepRaw).map normalizeFormat

/-- The miss path of `_fetch_and_cache_info` (src/app.py lines 70-114): run
the extraction, normalize, choose the cache duration, store, return; on an
extraction exception raise HTTP 500 and store nothing. The `Bool` result
records that extraction was invoked. -/
def fetch_and_store (now : Int) (extract : Except String RawInfo)
    (vid : String) (c1 : Cache) : Except HTTPError Payload × Cache × Bool :=
  match extract with
  | Except.error _ => (Except.error ⟨500⟩, c1, true)
  | Except.ok raw =>
    let formats := cleanFormats raw.formats
    let response_data : Payload := ⟨raw.title, vid, formats⟩
    let cache_duration :=
      if formats.length ≥ 12 then LONG_CACHE_DURATION else DEFAULT_CACHE_DURATION
    (Except.ok response_data,
      cacheSet c1 vid ⟨now, response_data, cache_duration⟩, true)

/-- `_fetch_and_cache_info` (src/app.py lines 50-114): take the time, sweep,
return the cached payload on a fresh hit, otherwise extract and store. The
`Bool` result records whether extraction was invoked. -/
def _fetch_and_cache_info (now : Int) (extract : Except String RawInfo)
    (vid : String) (cache : Cache) : Except HTTPError Payload × Cache × Bool :=
  let c1 := cleanup_cache now cache
  match cacheFind c1 vid with
  | some e =>
    if now - e.ts < e.dur then (Except.ok e.data, c1, false)
    else fetch_and_store now extract vid c1
  | none => fetch_and_store now extract vid c1

/-- Endpoint `GET /stream/{video_id}` (src/app.py lines 120-123). -/
def get_streams (now : Int) (extract : Except String RawInfo)
    (vid : String) (cache : Cache) : Except HTTPError Payload × Cache × Bool :=
  _fetch_and_cache_info now extract vid cache

/-- Sentinel test `x in ["none", None]`. -/
def isNoneStr : Option String → Bool
  | none => true
  | some s => s == "none"

/-- Negation `x not in ["none", None]`. -/
def notNoneStr (o : Option String) : Bool := !(isNoneStr o)

/-- Membership `f.get("protocol") in ["m3u8_native", "http_dash_segments"]`. -/
def isManifestProto (o : Option String) : Bool :=
  o == some "m3u8_native" || o == some "http_dash_segments"

/-- The manifest filter of `get_m3u8_streams` (src/app.py lines 140-148):
`f.get("url") and (".m3u8" in f["url"] or f.get("ext") == "m3u8" or
f.get("protocol") in ["m3u8_native", "http_dash_segments"])`. -/
def m3u8Pred (f : Format) : Bool :=
  truthyStr f.url &&
    (strContains (f.url.getD "") ".m3u8" || f.ext == some "m3u8" ||
      isManifestProto f.protocol)

/-- The `m3u8_response` dict. -/
structure M3u8Response where
  title : Option String
  id : String
  m3u8_formats : List Format
deriving Repr, DecidableEq

/-- Endpoint `GET /m3u8/{video_id}` (src/app.py lines 129-160). -/
def get_m3u8_streams (now : Int) (extract : Except String RawInfo)
    (vid : String) (cache : Cache) : Except HTTPError M3u8Response × Cache :=
  match _fetch_and_cache_info now extract vid cache with
  | (Except.error e, c, _) => (Except.error e, c)
  | (Except.ok data, c, _) =>
    let m3u8_formats := data.formats.filter m3u8Pred
    if m3u8_formats.isEmpty then (Except.error ⟨404⟩, c)
    else (Except.ok ⟨data.title, vid, m3u8_formats⟩, c)

/-- Filter for the combined subset (src/app.py lines 181-189): both codecs
present, not a manifest protocol, and a `googlevideo.com` direct URL. -/
def combinedPred (f : Format) : Bool :=
  notNoneStr f.acodec && notNoneStr f.vcodec &&
    !(isManifestProto f.protocol) &&
    strContains (f.url.getD "") "googlevideo.com"

/-- Filter for the separated subset (src/app.py lines 201-207). -/
def sepPred (f : Format) : Bool :=
  (isNoneStr f.acodec || isNoneStr f.vcodec) && truthyStr f.url &&
    strContains (f.url.getD "") "googlevideo.com" &&
    !(isManifestProto f.protocol)

/-- The generator condition inside `next(...)` (src/app.py line 213):
video codec present, audio codec absent. -/
def videoOnly (f : Format) : Bool :=
  notNoneStr f.vcodec && isNoneStr f.acodec

/-- Sort key `lambda x: x.get("vbr") or 0` (an absent bitrate counts as 0). -/
def vbrKey (f : Format) : Int := f.vbr.getD 0

/-- One step of a stable descending insertion sort: `a`, which precedes the
already-sorted elements in the input list, goes in front of the first element
whose key does not exceed `key a`, so equal keys keep input order. -/
def insertDesc {α : Type} (key : α → Int) (a : α) : List α → List α
  | [] => [a]
  | b :: bs => if key b ≤ key a then a :: b :: bs else b :: insertDesc key a bs

/-- Stable descending sort, the embedding of Python's stable
`sorted(l, key=..., reverse=True)`. -/
def sortDesc {α : Type} (key : α → Int) : List α → List α
  | [] => []
  | a :: as => insertDesc key a (sortDesc key as)

/-- The first element of the list attaining the maximum key; the
specification-side characterization of `sorted(..., reverse=True)[0]`. -/
def firstMaxBy {α : Type} (key : α → Int) : List α → Option α
  | [] => none
  | a :: as =>
    match firstMaxBy key as with
    | none => some a
    | some b => if key a < key b then some b else some a

/-- The note string assigned at src/app.py line 220. -/
def noteText : String :=
  "NOTE: This is a separate video stream (no audio) and the best direct video URL found."

/-- Replace the first occurrence of `f` in the list by `f'`. Models the
in-place dict mutation `best_format['note'] = ...`: the mutated object is the
first element of the cached formats list equal to the chosen value, because
the stable selection always picks the earliest of equal candidates. -/
def replaceFirst (fs : List Format) (f f' : Format) : List Format :=
  match fs with
  | [] => []
  | g :: gs => if g = f then f' :: gs else g :: replaceFirst gs f f'

/-- Overwrite the payload stored under `k`, if present. Models the fact that
the response dict returned by `_fetch_and_cache_info` is the same object as
`CACHE[vid][1]`, so mutating it mutates the cache. -/
def cacheUpdatePayload (c : Cache) (k : String) (d : Payload) : Cache :=
  c.map (fun p => if p.1 = k then (p.1, { p.2 with data := d }) else p)

/-- The `high_response` dict. -/
structure HighResponse where
  title : Option String
  id : String
  format : Format
deriving Repr, DecidableEq

/-- Endpoint `GET /high/{video_id}` (src/app.py lines 166-231). The combined
pick is `sorted(target_combined_formats, ...)[0]`, i.e. the head of the
stable descending sort; the fallback pick is `next(f for f in
sorted(separated_formats, ...) if ...)`, i.e. `find?` on that sort. On the
fallback path the note assignment mutates the chosen dict, which the cached
payload aliases. -/
def get_high_quality_stream (now : Int) (extract : Except String RawInfo)
    (vid : String) (cache : Cache) : Except HTTPError HighResponse × Cache :=
  match _fetch_and_cache_info now extract vid cache with
  | (Except.error e, c, _) => (Except.error e, c)
  | (Except.ok data, c, _) =>
    let formats := data.formats
    let target_combined := formats.filter combinedPred
    match (sortDesc vbrKey target_combined).head? with
    | some best => (Except.ok ⟨data.title, vid, best⟩, c)
    | none =>
      let separated := formats.filter sepPred
      match (sortDesc vbrKey separated).find? videoOnly with
      | some bv =>
        let bv' : Format := { bv with note := some noteText }
        let data' : Payload := { data with formats := replaceFirst formats bv bv' }
        (Except.ok ⟨data.title, vid, bv'⟩, cacheUpdatePayload c vid data')
      | none => (Except.error ⟨404⟩, c)

/-- One row of the `/cache` listing. -/
structure CacheView where
  age_sec : Int
  remaining_sec : Int
  duration_sec : Int
deriving Repr, DecidableEq

/-- Endpoint `GET /cache` (src/app.py lines 250-262): sweep, then report per
key the age, the remaining time and the assigned duration. -/
def list_cache (now : Int) (c : Cache) : List (String × CacheView) × Cache :=
  let c1 := cleanup_cache now c
  (c1.map (fun p =>
    (p.1, ⟨now - p.2.ts, p.2.dur - (now - p.2.ts), p.2.dur⟩)), c1)

/-- Is there a fresh entry for `vid`? (`video_id in CACHE` together with the
freshness test `current_time - timestamp < duration`.) -/
def freshHit (now : Int) (c : Cache) (vid : String) : Bool :=
  match cacheFind c vid with
  | none => false
  | some e => decide (now - e.ts < e.dur)

/-! ### Helper lemmas about the stable descending sort and the selections -/

theorem mem_insertDesc {α : Type} (key : α → Int) (a x : α) (s : List α) :
    x ∈ insertDesc key a s ↔ x = a ∨ x ∈ s := by
  induction s with
  | nil => simp [insertDesc]
  | cons b bs ih =>
    by_cases h : key b ≤ key a
    · simp [insertDesc, h]
    · simp [insertDesc, h, ih]
      tauto

theorem mem_sortDesc {α : Type} (key : α → Int) (x : α) (l : List α) :
    x ∈ sortDesc key l ↔ x ∈ l := by
  induction l with
  | nil => simp [sortDesc]
  | cons a as ih => simp [sortDesc, mem_insertDesc, ih]

theorem insertDesc_eq_cons {α : Type} (key : α → Int) (a : α) (s : List α)
    (h : ∀ x ∈ s, key x ≤ key a) : insertDesc key a s = a :: s := by
  cases s with
  | nil => rfl
  | cons b bs =>
    have hb : key b ≤ key a := h b (by simp)
    simp [insertDesc, hb]

theorem pairwise_insertDesc {α : Type} (key : α → Int) (a : α) (s : List α)
    (hs : s.Pairwise (fun x y => key y ≤ key x)) :
    (insertDesc key a s).Pairwise (fun x y => key y ≤ key x) := by
  induction s with
  | nil => simp [insertDesc]
  | cons b bs ih =>
    rw [List.pairwise_cons] at hs
    obtain ⟨hb, hbs⟩ := hs
    by_cases h : key b ≤ key a
    · rw [insertDesc, if_pos h, List.pairwise_cons]
      refine ⟨?_, by rw [List.pairwise_cons]; exact ⟨hb, hbs⟩⟩
      intro x hx
      rcases List.mem_cons.mp hx with rfl | hx
      · exact h
      · exact le_trans (hb x hx) h
    · rw [insertDesc, if_neg h, List.pairwise_cons]
      refine ⟨?_, ih hbs⟩
      intro x hx
      rcases (mem_insertDesc key a x bs).mp hx with rfl | hx
      · exact le_of_lt (lt_of_not_le h)
      · exact hb x hx

theorem pairwise_sortDesc {α : Type} (key : α → Int) (l : List α) :
    (sortDesc key l).Pairwise (fun x y => key y ≤ key x) := by
  induction l with
  | nil => simp [sortDesc]
  | cons a as ih => exact pairwise_insertDesc key a _ ih

theorem filter_insertDesc {α : Type} (key : α → Int) (p : α → Bool) (a : α)
    (s : List α) (hs : s.Pairwise (fun x y => key y ≤ key x)) :
    (insertDesc key a s).filter p =
      if p a then insertDesc key a (s.filter p) else s.filter p := by
  induction s with
  | nil =>
    by_cases ha : p a <;> simp [insertDesc, List.filter, ha]
  | cons b bs ih =>
    rw [List.pairwise_cons] at hs
    obtain ⟨hb, hbs⟩ := hs
    by_cases h : key b ≤ key a
    · rw [insertDesc, if_pos h]
      have hcons : ∀ t : List α, (∀ x ∈ t, key x ≤ key a) →
          insertDesc key a t = a :: t := fun t => insertDesc_eq_cons key a t
      by_cases ha : p a
      · rw [if_pos ha]
        have : ((b :: bs).filter p).Sublist (b :: bs) := List.filter_sublist _
        have hle : ∀ x ∈ (b :: bs).filter p, key x ≤ key a := by
          intro x hx
          rcases List.mem_cons.mp (this.mem hx) with rfl | hx'
          · exact h
          · exact le_trans (hb x hx') h
        rw [hcons _ hle]
        simp [List.filter, ha]
      · rw [if_neg ha]
        simp [List.filter, ha]
    · rw [insertDesc, if_neg h]
      have hlt : key a < key b := lt_of_not_le h
      by_cases hbp : p b
      · simp only [List.filter, hbp, ih hbs]
        by_cases ha : p a
        · rw [if_pos ha, if_pos ha]
          have : insertDesc key a (b :: bs.filter p) =
              b :: insertDesc key a (bs.filter p) := by
            rw [insertDesc, if_neg h]
          simp [List.filter, hbp, this]
        · rw [if_neg ha, if_neg ha]
      · simp only [List.filter, hbp, ih hbs]

theorem filter_sortDesc {α : Type} (key : α → Int) (p : α → Bool) (l : List α) :
    (sortDesc key l).filter p = sortDesc key (l.filter p) := by
  induction l with
  | nil => simp [sortDesc]
  | cons a as ih =>
    rw [sortDesc, filter_insertDesc key p a _ (pairwise_sortDesc key as), ih]
    by_cases ha : p a
    · simp [List.filter, ha, sortDesc]
    · simp [List.filter, ha]

theorem head?_sortDesc {α : Type} (key : α → Int) (l : List α) :
    (sortDesc key l).head? = firstMaxBy key l := by
  induction l with
  | nil => rfl
  | cons a as ih =>
    rw [sortDesc, firstMaxBy, ← ih]
    cases hs : sortDesc key as with
    | nil => simp [insertDesc]
    | cons b bs =>
      by_cases h : key b ≤ key a
      · have hnl : ¬ key a < key b := not_lt.mpr h
        simp [insertDesc, h, hnl]
      · have hl : key a < key b := lt_of_not_le h
        simp [insertDesc, h, hl]

theorem find?_eq_head?_filter {α : Type} (p : α → Bool) (l : List α) :
    l.find? p = (l.filter p).head? := by
  induction l with
  | nil => rfl
  | cons a as ih =>
    by_cases ha : p a
    · rw [List.find?_cons_of_pos _ ha, List.filter_cons_of_pos ha]
      rfl
    · rw [List.find?_cons_of_neg _ ha, List.filter_cons_of_neg ha, ih]

theorem find?_sortDesc {α : Type} (key : α → Int) (p : α → Bool) (l : List α) :
    (sortDesc key l).find? p = firstMaxBy key (l.filter p) := by
  rw [find?_eq_head?_filter, filter_sortDesc, head?_sortDesc]

theorem firstMaxBy_eq_none {α : Type} (key : α → Int) (l : List α) :
    firstMaxBy key l = none ↔ l = [] := by
  cases l with
  | nil => simp [firstMaxBy]
  | cons a as =>
    simp only [firstMaxBy]
    cases firstMaxBy key as with
    | none => simp
    | some b =>
      by_cases h : key a < key b <;> simp [h]

theorem firstMaxBy_mem {α : Type} (key : α → Int) (l : List α) (f : α)
    (h : firstMaxBy key l = some f) : f ∈ l := by
  induction l generalizing f with
  | nil => simp [firstMaxBy] at h
  | cons a as ih =>
    rw [firstMaxBy] at h
    cases hm : firstMaxBy key as with
    | none =>
      rw [hm] at h
      have h' : a = f := by simpa using h
      rw [← h']
      exact List.mem_cons_self a as
    | some b =>
      rw [hm] at h
      have h0 : (if key a < key b then some b else some a) = some f := h
      by_cases hk : key a < key b
      · rw [if_pos hk] at h0
        have h' : b = f := by simpa using h0
        rw [← h']
        exact List.mem_cons_of_mem a (ih b hm)
      · rw [if_neg hk] at h0
        have h' : a = f := by simpa using h0
        rw [← h']
        exact List.mem_cons_self a as

theorem firstMaxBy_max {α : Type} (key : α → Int) (l : List α) (f : α)
    (h : firstMaxBy key l = some f) : ∀ g ∈ l, key g ≤ key f := by
  induction l generalizing f with
  | nil => simp [firstMaxBy] at h
  | cons a as ih =>
    rw [firstMaxBy] at h
    cases hm : firstMaxBy key as with
    | none =>
      rw [hm] at h
      have h' : a = f := by simpa using h
      have hnil : as = [] := (firstMaxBy_eq_none key as).mp hm
      subst hnil
      intro g hg
      have : g = a := by simpa using hg
      rw [this, h']
    | some b =>
      rw [hm] at h
      have h0 : (if key a < key b then some b else some a) = some f := h
      intro g hg
      rcases List.mem_cons.mp hg with rfl | hg'
      · by_cases hk : key g < key b
        · rw [if_pos hk] at h0
          have h' : b = f := by simpa using h0
          rw [← h']
          exact le_of_lt hk
        · rw [if_neg hk] at h0
          have h' : g = f := by simpa using h0
          rw [← h']
      · have hgb : key g ≤ key b := ih b hm g hg'
        by_cases hk : key a < key b
        · rw [if_pos hk] at h0
          have h' : b = f := by simpa using h0
          rw [← h']
          exact hgb
        · rw [if_neg hk] at h0
          have h' : a = f := by simpa using h0
          rw [← h']
          exact le_trans hgb (not_lt.mp hk)

theorem firstMaxBy_first {α : Type} (key : α → Int) (l : List α) (f : α)
    (h : firstMaxBy key l = some f) :
    l.find? (fun g => decide (key f ≤ key g)) = some f := by
  induction l generalizing f with
  | nil => simp [firstMaxBy] at h
  | cons a as ih =>
    rw [firstMaxBy] at h
    cases hm : firstMaxBy key as with
    | none =>
      rw [hm] at h
      have h' : a = f := by simpa using h
      rw [← h']
      rw [List.find?_cons_of_pos _ (by simp)]
    | some b =>
      rw [hm] at h
      have h0 : (if key a < key b then some b else some a) = some f := h
      by_cases hk : key a < key b
      · rw [if_pos hk] at h0
        have h' : b = f := by simpa using h0
        rw [← h']
        rw [List.find?_cons_of_neg _ (by simpa using not_le.mpr hk)]
        exact ih b hm
      · rw [if_neg hk] at h0
        have h' : a = f := by simpa using h0
        rw [← h']
        rw [List.find?_cons_of_pos _ (by simp)]

/-! ### Helper lemmas about the cache operations -/

theorem cacheFind_cacheSet_self (c : Cache) (k : String) (e : CacheEntry) :
    cacheFind (cacheSet c k e) k = some e := by
  induction c with
  | nil => simp [cacheSet, cacheFind]
  | cons p rest ih =>
    by_cases hk : p.1 = k
    · rw [cacheSet, List.filter_cons_of_neg (by simp [hk])]
      exact ih
    · rw [cacheSet, List.filter_cons_of_pos (by simp [hk]), List.cons_append,
        cacheFind, if_neg hk]
      exact ih

theorem cacheFind_cleanup_fresh (now : Int) (c : Cache) (vid : String)
    (e : CacheEntry) (h : cacheFind (cleanup_cache now c) vid = some e) :
    now - e.ts < e.dur := by
  induction c with
  | nil => simp [cleanup_cache, cacheFind] at h
  | cons p rest ih =>
    by_cases hp : now - p.2.ts < p.2.dur
    · rw [cleanup_cache, List.filter_cons_of_pos (by simpa using hp),
        cacheFind] at h
      by_cases hk : p.1 = vid
      · rw [if_pos hk] at h
        have : p.2 = e := by simpa using h
        rw [← this]
        exact hp
      · rw [if_neg hk] at h
        exact ih h
    · rw [cleanup_cache, List.filter_cons_of_neg (by simpa using hp)] at h
      exact ih h

theorem fetch_and_store_invoked (now : Int) (extract : Except String RawInfo)
    (vid : String) (c1 : Cache) : (fetch_and_store now extract vid c1).2.2 = true := by
  cases extract <;> rfl

/-! ### The claims -/

/-- C2: the retrieval coordinator stores an entry whose TTL is 14200 seconds
exactly when the normalized format count is at least 12 and 600 seconds
otherwise, and the long TTL is strictly longer than the short one. -/
theorem claim_C2_ttl_policy (now : Int) (raw : RawInfo) (vid : String)
    (cache : Cache) (hmiss : freshHit now (cleanup_cache now cache) vid = false) :
    (cacheFind ((_fetch_and_cache_info now (Except.ok raw) vid cache).2.1) vid).map
        CacheEntry.dur =
      some (if (cleanFormats raw.formats).length ≥ 12 then 14200 else 600)
    ∧ (600 : Int) < 14200 := by
  refine ⟨?_, by norm_num⟩
  cases hf : cacheFind (cleanup_cache now cache) vid with
  | none =>
    simp only [_fetch_and_cache_info, hf, fetch_and_store]
    simp [cacheFind_cacheSet_self, LONG_CACHE_DURATION, DEFAULT_CACHE_DURATION]
  | some e =>
    have hfr : ¬ (now - e.ts < e.dur) := by
      unfold freshHit at hmiss
      rw [hf] at hmiss
      simpa using hmiss
    simp only [_fetch_and_cache_info, hf, if_neg hfr, fetch_and_store]
    simp [cacheFind_cacheSet_self, LONG_CACHE_DURATION, DEFAULT_CACHE_DURATION]

/-- C2 witness: a 12-format extraction is stored for 14200 seconds. -/
theorem claim_C2_ttl_policy_witness :
    (cacheFind ((_fetch_and_cache_info 0
        (Except.ok ⟨some "t",
          List.replicate 12 ⟨some "22", some "mp4", none, none, some "mp4a",
            some "avc1", some "https://x/v", some "https", some 100, none⟩⟩)
        "vid" []).2.1) "vid").map CacheEntry.dur = some 14200
    ∧ (600 : Int) < 14200 :=
  ⟨(claim_C2_ttl_policy 0 ⟨some "t",
      List.replicate 12 ⟨some "22", some "mp4", none, none, some "mp4a",
        some "avc1", some "https://x/v", some "https", some 100, none⟩⟩
      "vid" [] (by decide)).1.trans (by rfl), by norm_num⟩

/-- C3: the sweep keeps an entry exactly when its age is still below its
TTL; equivalently it removes exactly the entries with `now - ts ≥ dur`,
touching nothing else. -/
theorem claim_C3_sweep_iff (now : Int) (c : Cache) (k : String) (e : CacheEntry) :
    (k, e) ∈ cleanup_cache now c ↔ (k, e) ∈ c ∧ now - e.ts < e.dur := by
  simp [cleanup_cache, List.mem_filter]

/-- C4: the coordinator answers from the cache, without invoking extraction,
exactly when a swept entry for the key exists and `now - storedAt < ttl`; in
that case the answer is that entry's stored payload. -/
theorem claim_C4_hit_iff (now : Int) (extract : Except String RawInfo)
    (vid : String) (cache : Cache) :
    (_fetch_and_cache_info now extract vid cache).2.2 = false ↔
      ∃ e, cacheFind (cleanup_cache now cache) vid = some e ∧
        now - e.ts < e.dur ∧
        (_fetch_and_cache_info now extract vid cache).1 = Except.ok e.data := by
  cases hf : cacheFind (cleanup_cache now cache) vid with
  | none =>
    have hres : _fetch_and_cache_info now extract vid cache
        = fetch_and_store now extract vid (cleanup_cache now cache) := by
      simp only [_fetch_and_cache_info, hf]
    rw [hres]
    simp [fetch_and_store_invoked]
  | some e =>
    by_cases hfr : now - e.ts < e.dur
    · have hres : _fetch_and_cache_info now extract vid cache
          = (Except.ok e.data, cleanup_cache now cache, false) := by
        simp only [_fetch_and_cache_info, hf, if_pos hfr]
      rw [hres]
      constructor
      · intro
        exact ⟨e, rfl, hfr, rfl⟩
      · intro
        rfl
    · have hres : _fetch_and_cache_info now extract vid cache
          = fetch_and_store now extract vid (cleanup_cache now cache) := by
        simp only [_fetch_and_cache_info, hf, if_neg hfr]
      rw [hres]
      constructor
      · intro hfalse
        rw [fetch_and_store_invoked] at hfalse
        exact absurd hfalse (by simp)
      · rintro ⟨e', he', hfr', _⟩
        have : e = e' := by simpa using he'
        rw [← this] at hfr'
        exact absurd hfr' hfr

/-- C9: when the extraction collaborator raises on a cache miss, the
coordinator surfaces HTTP 500, the cache afterwards is exactly the swept
cache (nothing was stored), and it holds no entry for the key. -/
theorem claim_C9_extraction_failure (now : Int) (vid : String) (cache : Cache)
    (msg : String)
    (hmiss : freshHit now (cleanup_cache now cache) vid = false) :
    _fetch_and_cache_info now (Except.error msg) vid cache
      = (Except.error ⟨500⟩, cleanup_cache now cache, true)
    ∧ cacheFind (cleanup_cache now cache) vid = none := by
  cases hf : cacheFind (cleanup_cache now cache) vid with
  | none =>
    refine ⟨?_, rfl⟩
    simp only [_fetch_and_cache_info, hf, fetch_and_store]
  | some e =>
    have hfr : now - e.ts < e.dur := cacheFind_cleanup_fresh now cache vid e hf
    have : freshHit now (cleanup_cache now cache) vid = true := by
      unfold freshHit
      rw [hf]
      simpa using hfr
    rw [this] at hmiss
    exact absurd hmiss (by simp)

/-- C9 witness: on an empty cache a failing extraction yields HTTP 500 and
stores nothing. -/
theorem claim_C9_extraction_failure_witness :
    _fetch_and_cache_info 3 (Except.error "boom") "vid" []
      = (Except.error ⟨500⟩, cleanup_cache 3 [], true)
    ∧ cacheFind (cleanup_cache 3 []) "vid" = none :=
  claim_C9_extraction_failure 3 "vid" [] "boom" (by decide)

/-- C10: every row reported by the cache listing satisfies
`age_sec < duration_sec` and `remaining_sec ≥ 0`, because the sweep runs
before the snapshot is taken. -/
theorem claim_C10_list_fresh (now : Int) (c : Cache) (k : String) (v : CacheView)
    (h : (k, v) ∈ (list_cache now c).1) :
    v.age_sec < v.duration_sec ∧ 0 ≤ v.remaining_sec := by
  unfold list_cache at h
  simp only [List.mem_map] at h
  obtain ⟨p, hmem, hv⟩ := h
  have hfresh : now - p.2.ts < p.2.dur := by
    rw [cleanup_cache, List.mem_filter] at hmem
    simpa using hmem.2
  have hv' : v = ⟨now - p.2.ts, p.2.dur - (now - p.2.ts), p.2.dur⟩ := by
    have := congrArg Prod.snd hv
    simpa using this.symm
  rw [hv']
  constructor
  · simpa using hfresh
  · simp
    omega

/-- C10 witness: a nine-seconds-old entry with TTL 600 is listed with age 9,
remaining 591. -/
theorem claim_C10_list_fresh_witness :
    CacheView.age_sec ⟨9, 591, 600⟩ < CacheView.duration_sec ⟨9, 591, 600⟩
    ∧ 0 ≤ CacheView.remaining_sec ⟨9, 591, 600⟩ :=
  claim_C10_list_fresh 9 [("a", ⟨0, ⟨none, "a", []⟩, 600⟩)] "a" ⟨9, 591, 600⟩
    (by decide)

/-! ### Run lemmas for the endpoints started on an empty cache -/

theorem fetch_empty_ok (now : Int) (raw : RawInfo) (vid : String) :
    _fetch_and_cache_info now (Except.ok raw) vid [] =
      (Except.ok ⟨raw.title, vid, cleanFormats raw.formats⟩,
        cacheSet [] vid ⟨now, ⟨raw.title, vid, cleanFormats raw.formats⟩,
          if (cleanFormats raw.formats).length ≥ 12 then LONG_CACHE_DURATION
          else DEFAULT_CACHE_DURATION⟩, true) := rfl

theorem m3u8_empty_run (now : Int) (raw : RawInfo) (vid : String) :
    (get_m3u8_streams now (Except.ok raw) vid []).1 =
      (if ((cleanFormats raw.formats).filter m3u8Pred).isEmpty then
        Except.error ⟨404⟩
      else Except.ok ⟨raw.title, vid, (cleanFormats raw.formats).filter m3u8Pred⟩) := by
  simp only [get_m3u8_streams, fetch_empty_ok]
  by_cases he : ((cleanFormats raw.formats).filter m3u8Pred).isEmpty
  · simp [he]
  · simp [he]

theorem high_empty_run (now : Int) (raw : RawInfo) (vid : String) :
    (get_high_quality_stream now (Except.ok raw) vid []).1 =
      (match (sortDesc vbrKey ((cleanFormats raw.formats).filter combinedPred)).head? with
       | some best => Except.ok ⟨raw.title, vid, best⟩
       | none =>
         match (sortDesc vbrKey ((cleanFormats raw.formats).filter sepPred)).find?
             videoOnly with
         | some bv => Except.ok ⟨raw.title, vid, { bv with note := some noteText }⟩
         | none => Except.error ⟨404⟩) := by
  simp only [get_high_quality_stream, fetch_empty_ok]
  cases (sortDesc vbrKey ((cleanFormats raw.formats).filter combinedPred)).head? with
  | some best => rfl
  | none =>
    cases (sortDesc vbrKey ((cleanFormats raw.formats).filter sepPred)).find?
        videoOnly with
    | some bv => rfl
    | none => rfl

theorem mem_of_head? {α : Type} (l : List α) (x : α) (h : l.head? = some x) :
    x ∈ l := by
  cases l with
  | nil => simp at h
  | cons a as =>
    have : a = x := by simpa using h
    rw [← this]
    exact List.mem_cons_self a as

/-- The cleaning invariant on one descriptor: playable URL, not an mhtml
sprite sheet. -/
def goodFmt (f : Format) : Bool :=
  truthyStr f.url && !(f.ext == some "mhtml")

theorem goodFmt_normalize (r : RawFormat) :
    goodFmt (normalizeFormat r) = keepRaw r := rfl

theorem goodFmt_note (f : Format) (n : Option String) :
    goodFmt { f with note := n } = goodFmt f := rfl

theorem cleanFormats_good (raws : List RawFormat) (f : Format)
    (h : f ∈ cleanFormats raws) : goodFmt f = true := by
  rw [cleanFormats] at h
  obtain ⟨r, hr, rfl⟩ := List.mem_map.mp h
  rw [goodFmt_normalize]
  exact (List.mem_filter.mp hr).2

/-- C5: a descriptor whose URL is empty or absent, or whose container is
"mhtml", never appears in the normalized list, the manifest view, or the
best-pick view. -/
theorem claim_C5_cleaning (raws : List RawFormat) (title : Option String)
    (now : Int) (vid : String) (f : Format) :
    (f ∈ cleanFormats raws → goodFmt f = true)
    ∧ (∀ m, (get_m3u8_streams now (Except.ok ⟨title, raws⟩) vid []).1 =
          Except.ok m → f ∈ m.m3u8_formats → goodFmt f = true)
    ∧ (∀ hr, (get_high_quality_stream now (Except.ok ⟨title, raws⟩) vid []).1 =
          Except.ok hr → hr.format = f → goodFmt f = true) := by
  refine ⟨cleanFormats_good raws f, ?_, ?_⟩
  · intro m hm hf
    rw [m3u8_empty_run] at hm
    by_cases he : ((cleanFormats raws).filter m3u8Pred).isEmpty
    · rw [if_pos he] at hm
      exact absurd hm (by simp)
    · rw [if_neg he] at hm
      have hm' : m = ⟨title, vid, (cleanFormats raws).filter m3u8Pred⟩ := by
        have := hm
        simp at this
        rw [this]
      rw [hm'] at hf
      exact cleanFormats_good raws f ((List.mem_filter.mp hf).1)
  · intro hr hok hfmt
    rw [high_empty_run] at hok
    cases hhead : (sortDesc vbrKey ((cleanFormats raws).filter combinedPred)).head? with
    | some best =>
      rw [hhead] at hok
      have hbr : hr = ⟨title, vid, best⟩ := by
        have := hok
        simp at this
        rw [this]
      have hbf : best = f := by rw [hbr] at hfmt; simpa using hfmt
      have hmem : best ∈ (cleanFormats raws).filter combinedPred :=
        (mem_sortDesc vbrKey best _).mp (mem_of_head? _ best hhead)
      rw [← hbf]
      exact cleanFormats_good raws best ((List.mem_filter.mp hmem).1)
    | none =>
      rw [hhead] at hok
      cases hfind : (sortDesc vbrKey ((cleanFormats raws).filter sepPred)).find?
          videoOnly with
      | some bv =>
        rw [hfind] at hok
        have hbr : hr = ⟨title, vid, { bv with note := some noteText }⟩ := by
          have := hok
          simp at this
          rw [this]
        have hbf : { bv with note := some noteText } = f := by
          rw [hbr] at hfmt
          simpa using hfmt
        have hmem : bv ∈ (cleanFormats raws).filter sepPred :=
          (mem_sortDesc vbrKey bv _).mp (List.mem_of_find?_eq_some hfind)
        rw [← hbf, goodFmt_note]
        exact cleanFormats_good raws bv ((List.mem_filter.mp hmem).1)
      | none =>
        rw [hfind] at hok
        exact absurd hok (by simp)

/-- C5 witness: a descriptor that survived cleaning next to a dropped
sprite-sheet one satisfies the invariant. -/
theorem claim_C5_cleaning_witness :
    goodFmt (normalizeFormat ⟨some "22", some "mp4", none, none, some "mp4a",
      some "avc1", some "https://x/v", some "https", some 100, none⟩) = true :=
  (claim_C5_cleaning [⟨some "sb0", some "mhtml", none, none, none, none,
    some "https://x/sprite", some "mhtml", none, none⟩,
    ⟨some "22", some "mp4", none, none, some "mp4a", some "avc1",
    some "https://x/v", some "https", some 100, none⟩] (some "t") 0 "v"
    (normalizeFormat ⟨some "22", some "mp4", none, none, some "mp4a", some "avc1",
      some "https://x/v", some "https", some 100, none⟩)).1 (by decide)

/-- The manifest-view filter exactly as the claim words it: manifest
transport protocol, or container "m3u8", or a URL containing ".m3u8". -/
def manifestSpecPred (f : Format) : Bool :=
  f.protocol == some "m3u8_native" || f.protocol == some "http_dash_segments" ||
    f.ext == some "m3u8" || strContains (f.url.getD "") ".m3u8"

theorem m3u8Pred_eq_spec (f : Format) (hu : truthyStr f.url = true) :
    m3u8Pred f = manifestSpecPred f := by
  simp only [m3u8Pred, manifestSpecPred, isManifestProto, hu, Bool.true_and]
  cases h1 : strContains (f.url.getD "") ".m3u8" <;>
    cases h2 : f.ext == some "m3u8" <;>
      cases h3 : f.protocol == some "m3u8_native" <;>
        cases h4 : f.protocol == some "http_dash_segments" <;> simp

theorem filter_m3u8_eq_spec (raws : List RawFormat) :
    (cleanFormats raws).filter m3u8Pred =
      (cleanFormats raws).filter manifestSpecPred := by
  apply List.filter_congr
  intro f hf
  have hg := cleanFormats_good raws f hf
  rw [goodFmt] at hg
  exact m3u8Pred_eq_spec f (by
    cases hu : truthyStr f.url
    · rw [hu] at hg; simp at hg
    · rfl)

/-- C6: on a cleaned list the manifest view returns exactly the descriptors
selected by the claim's predicate, and fails with 404 exactly when that set
is empty. -/
theorem claim_C6_manifest_view (now : Int) (title : Option String)
    (raws : List RawFormat) (vid : String) :
    (∀ m, (get_m3u8_streams now (Except.ok ⟨title, raws⟩) vid []).1 =
        Except.ok m →
        m.m3u8_formats = (cleanFormats raws).filter manifestSpecPred)
    ∧ ((get_m3u8_streams now (Except.ok ⟨title, raws⟩) vid []).1 =
          Except.error ⟨404⟩ ↔
        (cleanFormats raws).filter manifestSpecPred = []) := by
  have hrun := m3u8_empty_run now ⟨title, raws⟩ vid
  rw [filter_m3u8_eq_spec] at hrun
  constructor
  · intro m hm
    rw [hrun] at hm
    by_cases he : ((cleanFormats raws).filter manifestSpecPred).isEmpty
    · rw [if_pos he] at hm
      exact absurd hm (by simp)
    · rw [if_neg he] at hm
      have hm' : m = ⟨title, vid, (cleanFormats raws).filter manifestSpecPred⟩ := by
        have := hm
        simp at this
        rw [this]
      rw [hm']
  · rw [hrun]
    by_cases he : ((cleanFormats raws).filter manifestSpecPred).isEmpty
    · rw [if_pos he]
      have hnil : (cleanFormats raws).filter manifestSpecPred = [] := by
        simpa [List.isEmpty_iff] using he
      simp [hnil]
    · rw [if_neg he]
      have hnil : ¬ ((cleanFormats raws).filter manifestSpecPred = []) := by
        intro hn
        exact he (by simp [hn])
      simp [hnil]

/-- C6 witness: one HLS descriptor and one progressive descriptor; the view
returns exactly the HLS one. -/
theorem claim_C6_manifest_view_witness :
    M3u8Response.m3u8_formats ⟨some "t", "v",
        (cleanFormats [⟨some "96", some "mp4", none, none, some "mp4a",
          some "avc1", some "https://x/hls", some "m3u8_native", none, none⟩,
          ⟨some "22", some "mp4", none, none, some "mp4a", some "avc1",
          some "https://x/v", some "https", some 100, none⟩]).filter m3u8Pred⟩ =
      (cleanFormats [⟨some "96", some "mp4", none, none, some "mp4a",
        some "avc1", some "https://x/hls", some "m3u8_native", none, none⟩,
        ⟨some "22", some "mp4", none, none, some "mp4a", some "avc1",
        some "https://x/v", some "https", some 100, none⟩]).filter
        manifestSpecPred :=
  (claim_C6_manifest_view 0 (some "t")
    [⟨some "96", some "mp4", none, none, some "mp4a", some "avc1",
      some "https://x/hls", some "m3u8_native", none, none⟩,
      ⟨some "22", some "mp4", none, none, some "mp4a", some "avc1",
      some "https://x/v", some "https", some 100, none⟩] "v").1 _ (by
    rw [m3u8_empty_run]
    rfl)

/-- C7: whenever the combined googlevideo subset is non-empty, the best-pick
view returns its member with the maximum video bitrate (missing treated as
0), and among equal-maximum members the first-encountered one. -/
theorem claim_C7_combined_pick (now : Int) (title : Option String)
    (raws : List RawFormat) (vid : String)
    (hne : (cleanFormats raws).filter combinedPred ≠ []) :
    ∃ best,
      (get_high_quality_stream now (Except.ok ⟨title, raws⟩) vid []).1 =
        Except.ok ⟨title, vid, best⟩
      ∧ best ∈ (cleanFormats raws).filter combinedPred
      ∧ (∀ g ∈ (cleanFormats raws).filter combinedPred, vbrKey g ≤ vbrKey best)
      ∧ ((cleanFormats raws).filter combinedPred).find?
          (fun g => decide (vbrKey best ≤ vbrKey g)) = some best := by
  have hfm : firstMaxBy vbrKey ((cleanFormats raws).filter combinedPred) ≠ none := by
    intro hnone
    exact hne ((firstMaxBy_eq_none vbrKey _).mp hnone)
  obtain ⟨best, hbest⟩ := Option.ne_none_iff_exists'.mp hfm
  have hhead : (sortDesc vbrKey ((cleanFormats raws).filter combinedPred)).head?
      = some best := by
    rw [head?_sortDesc]
    exact hbest
  refine ⟨best, ?_, firstMaxBy_mem vbrKey _ best hbest,
    firstMaxBy_max vbrKey _ best hbest, firstMaxBy_first vbrKey _ best hbest⟩
  rw [high_empty_run, hhead]

/-- C7 witness: of two combined googlevideo descriptors with bitrates 500
and 1200, the selector picks the 1200 one. -/
theorem claim_C7_combined_pick_witness :
    ∃ best,
      (get_high_quality_stream 0 (Except.ok ⟨some "t",
          [⟨some "18", some "mp4", none, none, some "mp4a", some "avc1",
            some "https://rr1.googlevideo.com/videoplayback?a", some "https",
            some 500, none⟩,
          ⟨some "22", some "mp4", none, none, some "mp4a", some "avc1",
            some "https://rr1.googlevideo.com/videoplayback?b", some "https",
            some 1200, none⟩]⟩) "v" []).1 =
        Except.ok ⟨some "t", "v", best⟩
      ∧ best ∈ (cleanFormats
          [⟨some "18", some "mp4", none, none, some "mp4a", some "avc1",
            some "https://rr1.googlevideo.com/videoplayback?a", some "https",
            some 500, none⟩,
          ⟨some "22", some "mp4", none, none, some "mp4a", some "avc1",
            some "https://rr1.googlevideo.com/videoplayback?b", some "https",
            some 1200, none⟩]).filter combinedPred
      ∧ (∀ g ∈ (cleanFormats
          [⟨some "18", some "mp4", none, none, some "mp4a", some "avc1",
            some "https://rr1.googlevideo.com/videoplayback?a", some "https",
            some 500, none⟩,
          ⟨some "22", some "mp4", none, none, some "mp4a", some "avc1",
            some "https://rr1.googlevideo.com/videoplayback?b", some "https",
            some 1200, none⟩]).filter combinedPred, vbrKey g ≤ vbrKey best)
      ∧ ((cleanFormats
          [⟨some "18", some "mp4", none, none, some "mp4a", some "avc1",
            some "https://rr1.googlevideo.com/videoplayback?a", some "https",
            some 500, none⟩,
          ⟨some "22", some "mp4", none, none, some "mp4a", some "avc1",
            some "https://rr1.googlevideo.com/videoplayback?b", some "https",
            some 1200, none⟩]).filter combinedPred).find?
          (fun g => decide (vbrKey best ≤ vbrKey g)) = some best :=
  claim_C7_combined_pick 0 (some "t")
    [⟨some "18", some "mp4", none, none, some "mp4a", some "avc1",
      some "https://rr1.googlevideo.com/videoplayback?a", some "https",
      some 500, none⟩,
    ⟨some "22", some "mp4", none, none, some "mp4a", some "avc1",
      some "https://rr1.googlevideo.com/videoplayback?b", some "https",
      some 1200, none⟩] "v" (by decide)

/-- C8 counterexample: a cleaned list whose only descriptor is video-only,
non-manifest and playable, but hosted off googlevideo.com. The claim says
the best-pick view must return it; the code answers 404 because the
separated fallback is also restricted to googlevideo.com URLs. -/
theorem claim_C8_counterexample :
    (cleanFormats [⟨some "137", some "mp4", some "1080p", some 30, some "none",
        some "avc1", some "https://example.com/videoplayback", some "https",
        some 4000, none⟩]).filter
        (fun f => videoOnly f && !(isManifestProto f.protocol)) ≠ []
    ∧ (get_high_quality_stream 0 (Except.ok ⟨some "t",
        [⟨some "137", some "mp4", some "1080p", some 30, some "none",
          some "avc1", some "https://example.com/videoplayback", some "https",
          some 4000, none⟩]⟩) "v" []).1 = Except.error ⟨404⟩ := by
  constructor
  · decide
  · rfl

/-- C8 amended: when the combined subset is empty, the best-pick view falls
back to the video-only descriptors of the separated googlevideo subset: if
that set is non-empty it returns its highest-bitrate member annotated with
the audio-missing note, and otherwise it fails with 404 (so it never
substitutes an audio-only stream). -/
theorem claim_C8_separated_fallback (now : Int) (title : Option String)
    (raws : List RawFormat) (vid : String)
    (hcomb : (cleanFormats raws).filter combinedPred = []) :
    ((((cleanFormats raws).filter sepPred).filter videoOnly) ≠ [] →
      ∃ bv, (get_high_quality_stream now (Except.ok ⟨title, raws⟩) vid []).1 =
          Except.ok ⟨title, vid, { bv with note := some noteText }⟩
        ∧ bv ∈ ((cleanFormats raws).filter sepPred).filter videoOnly
        ∧ ∀ g ∈ ((cleanFormats raws).filter sepPred).filter videoOnly,
            vbrKey g ≤ vbrKey bv)
    ∧ ((((cleanFormats raws).filter sepPred).filter videoOnly) = [] →
      (get_high_quality_stream now (Except.ok ⟨title, raws⟩) vid []).1 =
        Except.error ⟨404⟩) := by
  have hrun : (get_high_quality_stream now (Except.ok ⟨title, raws⟩) vid []).1 =
      (match (sortDesc vbrKey ((cleanFormats raws).filter combinedPred)).head? with
       | some best => Except.ok ⟨title, vid, best⟩
       | none =>
         match (sortDesc vbrKey ((cleanFormats raws).filter sepPred)).find?
             videoOnly with
         | some bv => Except.ok ⟨title, vid, { bv with note := some noteText }⟩
         | none => Except.error ⟨404⟩) :=
    high_empty_run now ⟨title, raws⟩ vid
  rw [hcomb] at hrun
  rw [show sortDesc vbrKey ([] : List Format) = [] from rfl] at hrun
  rw [show ([] : List Format).head? = none from rfl] at hrun
  rw [find?_sortDesc] at hrun
  constructor
  · intro hne
    have hfm : firstMaxBy vbrKey (((cleanFormats raws).filter sepPred).filter
        videoOnly) ≠ none := by
      intro hnone
      exact hne ((firstMaxBy_eq_none vbrKey _).mp hnone)
    obtain ⟨bv, hbv⟩ := Option.ne_none_iff_exists'.mp hfm
    refine ⟨bv, ?_, firstMaxBy_mem vbrKey _ bv hbv, firstMaxBy_max vbrKey _ bv hbv⟩
    rw [hrun, hbv]
  · intro hnil
    rw [hrun, (firstMaxBy_eq_none vbrKey _).mpr hnil]

/-- C8 witness: two separated googlevideo video-only descriptors with
bitrates 1000 and 2500; the fallback returns the 2500 one with the note. -/
theorem claim_C8_separated_fallback_witness :
    ∃ bv, (get_high_quality_stream 0 (Except.ok ⟨some "t",
        [⟨some "134", some "mp4", none, none, some "none", some "avc1",
          some "https://rr2.googlevideo.com/videoplayback?a", some "https",
          some 1000, none⟩,
        ⟨some "137", some "mp4", none, none, some "none", some "avc1",
          some "https://rr2.googlevideo.com/videoplayback?b", some "https",
          some 2500, none⟩]⟩) "v" []).1 =
        Except.ok ⟨some "t", "v", { bv with note := some noteText }⟩
      ∧ bv ∈ ((cleanFormats
          [⟨some "134", some "mp4", none, none, some "none", some "avc1",
            some "https://rr2.googlevideo.com/videoplayback?a", some "https",
            some 1000, none⟩,
          ⟨some "137", some "mp4", none, none, some "none", some "avc1",
            some "https://rr2.googlevideo.com/videoplayback?b", some "https",
            some 2500, none⟩]).filter sepPred).filter videoOnly
      ∧ ∀ g ∈ ((cleanFormats
          [⟨some "134", some "mp4", none, none, some "none", some "avc1",
            some "https://rr2.googlevideo.com/videoplayback?a", some "https",
            some 1000, none⟩,
          ⟨some "137", some "mp4", none, none, some "none", some "avc1",
            some "https://rr2.googlevideo.com/videoplayback?b", some "https",
            some 2500, none⟩]).filter sepPred).filter videoOnly,
          vbrKey g ≤ vbrKey bv :=
  (claim_C8_separated_fallback 0 (some "t")
    [⟨some "134", some "mp4", none, none, some "none", some "avc1",
      some "https://rr2.googlevideo.com/videoplayback?a", some "https",
      some 1000, none⟩,
    ⟨some "137", some "mp4", none, none, some "none", some "avc1",
      some "https://rr2.googlevideo.com/videoplayback?b", some "https",
      some 2500, none⟩] "v" (by decide)).1 (by decide)

/-- The raw video-only googlevideo descriptor used for the C1 scenario. -/
def sepRawFormat : RawFormat :=
  ⟨some "137", some "mp4", some "1080p", some 30, some "none", some "avc1",
    some "https://rr1.googlevideo.com/videoplayback", some "https",
    some 4000, none⟩

/-- The cache after a successful Put of the C1 payload at time 0. -/
def sepCache0 : Cache :=
  (_fetch_and_cache_info 0 (Except.ok ⟨some "t", [sepRawFormat]⟩) "v" []).2.1

/-- The payload stored by that Put. -/
def sepPayload0 : Payload := ⟨some "t", "v", cleanFormats [sepRawFormat]⟩

/-- The cache after the intervening best-pick read. -/
def sepCache1 : Cache :=
  (get_high_quality_stream 0 (Except.error "unused") "v" sepCache0).2

/-- C1 is violated by the code: a Get right after the Put returns the stored
payload, but after the best-pick endpoint serves its separated fallback from
the cache (a pure read, extraction never invoked: the collaborator here is
failing and yet the call succeeds), a second Get within the TTL returns a
payload whose format gained a `note` field — the fallback's
`best_format['note'] = ...` mutates the dict the cache aliases. -/
theorem claim_C1_note_field_drift :
    (_fetch_and_cache_info 0 (Except.error "unused") "v" sepCache0).1
      = Except.ok sepPayload0
    ∧ (get_high_quality_stream 0 (Except.error "unused") "v" sepCache0).1
      = Except.ok ⟨some "t", "v",
          { normalizeFormat sepRawFormat with note := some noteText }⟩
    ∧ (_fetch_and_cache_info 0 (Except.error "unused") "v" sepCache1).2.2 = false
    ∧ (_fetch_and_cache_info 0 (Except.error "unused") "v" sepCache1).1
      = Except.ok ⟨some "t", "v",
          [{ normalizeFormat sepRawFormat with note := some noteText }]⟩
    ∧ Payload.mk (some "t") "v"
        [{ normalizeFormat sepRawFormat with note := some noteText }]
      ≠ sepPayload0 := by
  refine ⟨rfl, rfl, rfl, rfl, ?_⟩
  decide
